import Mathlib

/-!
Verification of the piano-fingering inference pipeline
(`src/js/src/inference.ts`), shallowly embedded in Lean 4.

Numbers: JS numeric values are modelled as exact rationals (`ℚ`), MIDI
pitches as integers (`ℤ`).  The `Infinity` sentinel stored in
`fingerLastTime` is modelled as `none : Option ℚ`; the `-1` sentinel in
`fingerLastMidi` is kept as the literal integer `-1`, exactly as in the
source.  The ONNX model is an opaque scoring oracle
`List ℚ → List ℚ` (token data in, logits out).

`Array.prototype.sort` with comparator `a.time - b.time || a.note - b.note`
is a stable sort by `(time, note)`; it is embedded as `List.insertionSort`
with the corresponding total preorder, which is the (unique) stable sort
for that preorder.
-/

namespace PianoFingering

/-- Pitch classes (relative to MIDI 21) of black keys (`BLACK_KEY_NOTES`). -/
def BLACK_KEY_NOTES : List ℤ := [1, 4, 6, 9, 11]

/-- Black-key feature `isBlackKey(midi)`: `-1.0` when `midi < 0`, else
`1.0` if the pitch class of `midi - 21` is a black key, else `0.0`. -/
def isBlackKey (midi : ℤ) : ℚ :=
  if midi < 0 then -1
  else
    let keyIndex := midi - 21
    if BLACK_KEY_NOTES.contains ((keyIndex % 12 + 12) % 12) then 1 else 0

/-- Pitch-class feature `midiToPitchClass(midi)`: `-1.0` when
`midi < 0`, else `(((midi - 21) % 12 + 12) % 12) / 11.0`. -/
def midiToPitchClass (midi : ℤ) : ℚ :=
  if midi < 0 then -1
  else
    let pitchClass := ((midi - 21) % 12 + 12) % 12
    (pitchClass : ℚ) / 11

/-- One lookahead entry handed to the encoder (`LookaheadNote` in the
source): MIDI pitch, time until the note in ms, and an optional finger
hint in `0..4` (`null` when unknown). -/
structure LookaheadNote where
  midi : ℤ
  timeUntil : ℚ
  finger : Option ℚ
deriving DecidableEq, Repr

/-- One `previous` token row of the encoder (loop body for `f = 0..4` in
`buildTokens`): pitch offset, time-since-release, black-key flag, token
type `0.0`, finger hint `-1.0`. -/
def prevRow (refMidiNorm : ℚ) (midi : ℤ) (lastTime : Option ℚ) : List ℚ :=
  [ if midi ≥ 0 then ((midi : ℚ) - 21) / 87 - refMidiNorm else -1,
    match lastTime with
    | none => 1
    | some t => max 0 (min t 10) / 10,
    if midi ≥ 0 then isBlackKey midi else -1,
    0,
    -1 ]

/-- The `current` token row (index 5) of the encoder: pitch class,
`0.0`, black-key flag, token type `0.5`, finger hint `-1.0`. -/
def currentRow (currentMidi : ℤ) : List ℚ :=
  [midiToPitchClass currentMidi, 0, isBlackKey currentMidi, 0.5, -1]

/-- One populated lookahead token row (indices 6-25) of the encoder. -/
def lookRow (refMidiNorm : ℚ) (ln : LookaheadNote) : List ℚ :=
  [ if ln.midi ≥ 0 then ((ln.midi : ℚ) - 21) / 87 - refMidiNorm else -1,
    if ln.timeUntil < 0 then -1 else min (ln.timeUntil / 1000) 10 / 10,
    if ln.midi ≥ 0 then isBlackKey ln.midi else -1,
    1,
    match ln.finger with
    | some f => if 0 ≤ f ∧ f ≤ 4 then f / 4 else -1
    | none => -1 ]

/-- A padding row: all five features `-1.0`. -/
def padRow : List ℚ := [-1, -1, -1, -1, -1]

/-- Rows 6-25 of the encoder output (the source's `j = 0..19` loop):
a populated lookahead row while notes remain, a padding row after. -/
def lookaheadRows (refMidiNorm : ℚ) (lookaheadNotes : List LookaheadNote) :
    List (List ℚ) :=
  (List.range 20).map fun j =>
    match lookaheadNotes[j]? with
    | some ln => lookRow refMidiNorm ln
    | none => padRow

/-- The encoder `buildTokens` as a 26-row matrix: rows 0-4 are the per-finger
`previous` tokens (the source's `f = 0..4` loop unrolled), row 5 the
`current` token, rows 6-25 the lookahead/padding tokens. -/
def buildTokensRows (currentMidi : ℤ) (fingerLastMidi : Fin 5 → ℤ)
    (fingerLastTime : Fin 5 → Option ℚ)
    (lookaheadNotes : List LookaheadNote) : List (List ℚ) :=
  let refMidiNorm : ℚ := ((currentMidi : ℚ) - 21) / 87
  [ prevRow refMidiNorm (fingerLastMidi 0) (fingerLastTime 0),
    prevRow refMidiNorm (fingerLastMidi 1) (fingerLastTime 1),
    prevRow refMidiNorm (fingerLastMidi 2) (fingerLastTime 2),
    prevRow refMidiNorm (fingerLastMidi 3) (fingerLastTime 3),
    prevRow refMidiNorm (fingerLastMidi 4) (fingerLastTime 4),
    currentRow currentMidi ]
  ++ lookaheadRows refMidiNorm lookaheadNotes

/-- The flat, row-major 26×5 = 130-value token vector returned by the
source function `buildTokens` (a `Float32Array(130)`). -/
def buildTokens (currentMidi : ℤ) (fingerLastMidi : Fin 5 → ℤ)
    (fingerLastTime : Fin 5 → Option ℚ)
    (lookaheadNotes : List LookaheadNote) : List ℚ :=
  (buildTokensRows currentMidi fingerLastMidi fingerLastTime lookaheadNotes).flatten

/-- Helper loop of `argmax`: scan positions `i, i+1, ...` of the
remaining list, tracking the best value and its index, updating only on
a strict improvement (`arr[i] > maxVal`). -/
def argmaxAux : List ℚ → ℕ → ℚ → ℕ → ℕ
  | [], _, _, maxIdx => maxIdx
  | x :: xs, i, maxVal, maxIdx =>
    if maxVal < x then argmaxAux xs (i + 1) x i
    else argmaxAux xs (i + 1) maxVal maxIdx

/-- Index of the first maximal element (`argmax(arr)`); `0` on the
empty list (as in the source, where `arr[0]` is `undefined` and every
comparison is false). -/
def argmax : List ℚ → ℕ
  | [] => 0
  | x :: xs => argmaxAux xs 1 x 0

/-- The `Note` record of the public interface.  `duration` is an
`Option` because the state update reads it as `note.duration ?? 100`;
`velocity` and `finger` are optional fields. -/
structure Note where
  left : Bool
  note : ℤ
  time : ℚ
  duration : Option ℚ
  velocity : Option ℚ
  finger : Option ℚ
deriving DecidableEq, Repr

/-- The scoring oracle: `model.run` reduced to its observable content,
a function from the flat token data to the logits array. -/
abbrev Oracle := List ℚ → List ℚ

/-- Per-finger mutable state of one hand run: `fingerLastMidi`
(initially `-1`) and `fingerLastTime`, with `none` standing for the
source's `Infinity` sentinel ("never used"). -/
structure FingerState where
  lastMidi : Fin 5 → ℤ
  lastTime : Fin 5 → Option ℚ

/-- Initial state: `fingerLastMidi = [-1,...]`,
`fingerLastTime = [Infinity,...]`. -/
def initFingerState : FingerState :=
  { lastMidi := fun _ => -1, lastTime := fun _ => none }

/-- Build one lookahead entry from a future note (`timeUntil` relative
to the current note; finger hint only for a fixed finger in `[1,5]`,
shifted to `0..4`). -/
def mkLookahead (currentTime : ℚ) (futureNote : Note) : LookaheadNote :=
  { midi := futureNote.note
    timeUntil := futureNote.time - currentTime
    finger :=
      match futureNote.finger with
      | some f => if 1 ≤ f ∧ f ≤ 5 then some (f - 1) else none
      | none => none }

/-- The lookahead slice for one step: the next (up to) 20 notes of the
hand, in processing order. -/
def handLookahead (note : Note) (rest : List Note) : List LookaheadNote :=
  (rest.take 20).map (mkLookahead note.time)

/-- The logits the oracle returns for one step of the hand run. -/
def oracleScores (oracle : Oracle) (st : FingerState) (note : Note)
    (rest : List Note) : List ℚ :=
  oracle (buildTokens note.note st.lastMidi st.lastTime (handLookahead note rest))

/-- Interpret a rational array index the way JS does on a length-5
array: only a canonical integer index `0..4` designates one of the five
tracked slots; any other value (e.g. the fractional index produced by a
caller-fixed finger of `2.5`) creates a property that no later read at
indices `0..4` observes. -/
def qToFin5 (q : ℚ) : Option (Fin 5) :=
  if h : q.den = 1 ∧ 0 ≤ q.num ∧ q.num < 5 then
    some ⟨q.num.toNat, by omega⟩
  else none

/-- The finger-state write after a note is processed:
`fingerLastMidi[fingerIdx] = currentMidi` and
`fingerLastTime[fingerIdx] = -((note.duration ?? 100) / 1000)`.
A non-slot index (see `qToFin5`) leaves all five tracked slots
unchanged, which is exactly what the JS write does to them. -/
def updateState (st : FingerState) (fingerIdx : ℚ) (midi : ℤ)
    (durationMs : Option ℚ) : FingerState :=
  match qToFin5 fingerIdx with
  | some k =>
    { lastMidi := Function.update st.lastMidi k midi
      lastTime := Function.update st.lastTime k (some (-(durationMs.getD 100 / 1000))) }
  | none => st

/-- The aging loop: add `dt` seconds to every finger's time that is not
the `Infinity` sentinel. -/
def advanceState (st : FingerState) (dtSec : ℚ) : FingerState :=
  { lastMidi := st.lastMidi
    lastTime := fun f => (st.lastTime f).map (fun t => t + dtSec) }

/-- State evolution of one loop iteration after the finger is chosen:
update the chosen finger, then—only when a next note exists—age all
finger times by the gap to that next note. -/
def runHandStep (st : FingerState) (note : Note) (finger : ℚ)
    (rest : List Note) : FingerState :=
  let st1 := updateState st (finger - 1) note.note note.duration
  match rest with
  | [] => st1
  | next :: _ => advanceState st1 ((next.time - note.time) / 1000)

/-- The returned record for one note: a copy of the input note; when the
note has no fixed finger in `[1,5]`, its `finger` field is set to the
model's prediction `pred + 1`. -/
def resolveNote (note : Note) (pred : ℕ) : Note :=
  match note.finger with
  | some f => if 1 ≤ f ∧ f ≤ 5 then note else { note with finger := some ((pred : ℚ) + 1) }
  | none => { note with finger := some ((pred : ℚ) + 1) }

/-- The finger value used for the state update: the fixed finger when a
valid one is present, else the prediction `pred + 1`. -/
def resolveFinger (noteFinger : Option ℚ) (pred : ℕ) : ℚ :=
  match noteFinger with
  | some f => if 1 ≤ f ∧ f ≤ 5 then f else (pred : ℚ) + 1
  | none => (pred : ℚ) + 1

/-- The main loop of `predictHandFingerings` over the sorted hand notes:
encode, score, resolve the finger, emit the result record, evolve the
finger state, recurse. -/
def runHand (oracle : Oracle) : FingerState → List Note → List Note
  | _, [] => []
  | st, note :: rest =>
    let pred := argmax (oracleScores oracle st note rest)
    resolveNote note pred ::
      runHand oracle (runHandStep st note (resolveFinger note.finger pred) rest) rest

/-- The sort order `(time, note)` used by both the per-hand sort and the
final merge sort (`a.time - b.time || a.note - b.note ≤ 0`). -/
def NoteLE (a b : Note) : Prop :=
  a.time < b.time ∨ (a.time = b.time ∧ a.note ≤ b.note)

instance : DecidableRel NoteLE := fun a b => by
  unfold NoteLE; infer_instance

instance : IsTotal Note NoteLE where
  total a b := by
    unfold NoteLE
    rcases lt_trichotomy a.time b.time with h | h | h
    · exact Or.inl (Or.inl h)
    · rcases le_total a.note b.note with h2 | h2
      · exact Or.inl (Or.inr ⟨h, h2⟩)
      · exact Or.inr (Or.inr ⟨h.symm, h2⟩)
    · exact Or.inr (Or.inl h)

instance : IsTrans Note NoteLE where
  trans a b c hab hbc := by
    unfold NoteLE at *
    rcases hab with h1 | ⟨e1, n1⟩
    · rcases hbc with h2 | ⟨e2, _⟩
      · exact Or.inl (h1.trans h2)
      · exact Or.inl (e2 ▸ h1)
    · rcases hbc with h2 | ⟨e2, n2⟩
      · exact Or.inl (e1 ▸ h2)
      · exact Or.inr ⟨e1.trans e2, n1.trans n2⟩

/-- The stable sort by `(time, note)` used in the source
(`[...].sort((a, b) => a.time - b.time || a.note - b.note)`). -/
def sortNotes (l : List Note) : List Note :=
  List.insertionSort NoteLE l

/-- One hand's prediction `predictHandFingerings(notes, isLeft, model)`:
filter one hand's notes, early-return on an empty hand, sort by
`(time, note)`, and run the per-note loop from a fresh finger state. -/
def predictHandFingerings (notes : List Note) (isLeft : Bool)
    (oracle : Oracle) : List Note :=
  let handNotes := notes.filter fun n => n.left == isLeft
  if handNotes.isEmpty then []
  else runHand oracle initFingerState (sortNotes handNotes)

/-- The pipeline `predictFingerings(notes, models)`: run the left hand,
then the right hand, concatenate left-then-right, and sort globally by
`(time, note)`. -/
def predictFingerings (notes : List Note) (modelLeft modelRight : Oracle) : List Note :=
  let leftResults := predictHandFingerings notes true modelLeft
  let rightResults := predictHandFingerings notes false modelRight
  sortNotes (leftResults ++ rightResults)

/-- The demo runner's execution order (`model-runner.ts`,
`runPrediction`): the right hand is evaluated before the left hand, but
the concatenation is still left-then-right. -/
def predictFingeringsRightFirst (notes : List Note) (modelLeft modelRight : Oracle) : List Note :=
  let rightResults := predictHandFingerings notes false modelRight
  let leftResults := predictHandFingerings notes true modelLeft
  sortNotes (leftResults ++ rightResults)

/-- Spec-side variant for the C3 refinement, following the spec's words
("implementers may skip the oracle call for fixed-finger notes as a
safe optimization"): the hand loop that consults the oracle only for
predicted notes and skips it for notes carrying a fixed finger in
`[1,5]`. -/
def runHandSkip (oracle : Oracle) : FingerState → List Note → List Note
  | _, [] => []
  | st, note :: rest =>
    match note.finger with
    | some f =>
      if 1 ≤ f ∧ f ≤ 5 then
        note :: runHandSkip oracle (runHandStep st note f rest) rest
      else
        let pred := argmax (oracleScores oracle st note rest)
        { note with finger := some ((pred : ℚ) + 1) } ::
          runHandSkip oracle (runHandStep st note ((pred : ℚ) + 1) rest) rest
    | none =>
      let pred := argmax (oracleScores oracle st note rest)
      { note with finger := some ((pred : ℚ) + 1) } ::
        runHandSkip oracle (runHandStep st note ((pred : ℚ) + 1) rest) rest

/-- Spec-side variant for the C3 refinement: `predictHandFingerings`
built on the oracle-skipping loop `runHandSkip`. -/
def predictHandFingeringsSkip (notes : List Note) (isLeft : Bool)
    (oracle : Oracle) : List Note :=
  let handNotes := notes.filter fun n => n.left == isLeft
  if handNotes.isEmpty then []
  else runHandSkip oracle initFingerState (sortNotes handNotes)

/-! ### Helper lemmas -/

/-- Feature at `(row, col)` of a token matrix. -/
def tokenFeature (M : List (List ℚ)) (row col : ℕ) : Option ℚ :=
  (M[row]?).bind fun r => r[col]?

/-- All fields other than `finger` agree. -/
def sameButFinger (a b : Note) : Prop :=
  a.left = b.left ∧ a.note = b.note ∧ a.time = b.time ∧
    a.duration = b.duration ∧ a.velocity = b.velocity

/-- Relation between a processed input note and its output record. -/
def HandNoteRel (a b : Note) : Prop :=
  sameButFinger a b ∧ b.finger.isSome = true ∧
    ∀ f, a.finger = some f → 1 ≤ f → f ≤ 5 → b = a

theorem runHand_nil (oracle : Oracle) (st : FingerState) :
    runHand oracle st [] = [] := rfl

theorem runHand_cons (oracle : Oracle) (st : FingerState) (note : Note)
    (rest : List Note) :
    runHand oracle st (note :: rest) =
      resolveNote note (argmax (oracleScores oracle st note rest)) ::
        runHand oracle
          (runHandStep st note
            (resolveFinger note.finger (argmax (oracleScores oracle st note rest))) rest)
          rest := rfl

theorem resolveNote_of_fixed (note : Note) (pred : ℕ) (f : ℚ)
    (hf : note.finger = some f) (h1 : 1 ≤ f) (h5 : f ≤ 5) :
    resolveNote note pred = note := by
  simp [resolveNote, hf, h1, h5]

theorem resolveNote_rel (note : Note) (pred : ℕ) :
    HandNoteRel note (resolveNote note pred) := by
  refine ⟨?_, ?_, ?_⟩
  · unfold resolveNote
    rcases note.finger with _ | f
    · exact ⟨rfl, rfl, rfl, rfl, rfl⟩
    · by_cases h : 1 ≤ f ∧ f ≤ 5 <;>
        simp [h, sameButFinger]
  · unfold resolveNote
    rcases hf : note.finger with _ | f
    · rfl
    · by_cases h : 1 ≤ f ∧ f ≤ 5 <;> simp [h, hf]
  · intro f hf h1 h5
    exact resolveNote_of_fixed note pred f hf h1 h5

theorem runHand_forall₂ (oracle : Oracle) :
    ∀ (l : List Note) (st : FingerState),
      List.Forall₂ HandNoteRel l (runHand oracle st l)
  | [], _ => List.Forall₂.nil
  | note :: rest, _ =>
    List.Forall₂.cons (resolveNote_rel note _) (runHand_forall₂ oracle rest _)

theorem mem_runHand_of_fixed (oracle : Oracle) :
    ∀ (l : List Note) (st : FingerState) (n : Note) (f : ℚ),
      n ∈ l → n.finger = some f → 1 ≤ f → f ≤ 5 →
      n ∈ runHand oracle st l := by
  intro l
  induction l with
  | nil => intro _ n f h; cases h
  | cons a rest ih =>
    intro st n f hmem hf h1 h5
    rcases List.mem_cons.mp hmem with rfl | hmem2
    · rw [runHand_cons, resolveNote_of_fixed n _ f hf h1 h5]
      exact List.mem_cons_self _ _
    · exact List.mem_cons_of_mem _ (ih _ n f hmem2 hf h1 h5)

theorem mem_right_of_forall₂ {α β : Type} {R : α → β → Prop} {b : β} :
    ∀ {l₁ : List α} {l₂ : List β}, List.Forall₂ R l₁ l₂ → b ∈ l₂ →
      ∃ a ∈ l₁, R a b := by
  intro l₁ l₂ h
  induction h with
  | nil => intro h; cases h
  | cons hr _ ih =>
    intro hmem
    rcases List.mem_cons.mp hmem with rfl | hmem2
    · exact ⟨_, List.mem_cons_self _ _, hr⟩
    · obtain ⟨a, ha, hrel⟩ := ih hmem2
      exact ⟨a, List.mem_cons_of_mem _ ha, hrel⟩

theorem sortNotes_perm (l : List Note) : List.Perm (sortNotes l) l :=
  List.perm_insertionSort NoteLE l

theorem sortNotes_sorted (l : List Note) : (sortNotes l).Pairwise NoteLE :=
  List.sorted_insertionSort NoteLE l

theorem predictHand_forall₂ (notes : List Note) (isLeft : Bool) (oracle : Oracle) :
    List.Forall₂ HandNoteRel
      (sortNotes (notes.filter fun n => n.left == isLeft))
      (predictHandFingerings notes isLeft oracle) := by
  unfold predictHandFingerings
  by_cases h : (notes.filter fun n => n.left == isLeft).isEmpty
  · rw [List.isEmpty_iff] at h
    simp [h, sortNotes]
  · simp only [h, if_false]
    exact runHand_forall₂ oracle _ _

theorem runHandSkip_eq_runHand (oracle : Oracle) :
    ∀ (l : List Note) (st : FingerState),
      runHandSkip oracle st l = runHand oracle st l := by
  intro l
  induction l with
  | nil => intro _; rfl
  | cons note rest ih =>
    intro st
    rw [runHand_cons]
    unfold runHandSkip resolveNote resolveFinger
    rcases hf : note.finger with _ | f
    · dsimp only
      rw [ih]
    · dsimp only
      by_cases hv : 1 ≤ f ∧ f ≤ 5
      · rw [if_pos hv, if_pos hv, if_pos hv, ih]
      · rw [if_neg hv, if_neg hv, if_neg hv, ih]

/-! ### Sample data for concrete witnesses -/

/-- A constant scoring oracle: finger index 0 always wins. -/
def sampleOracle : Oracle := fun _ => [1, 0, 0, 0, 0]

/-- An oracle whose scores tie at indices 1, 2 and 4. -/
def sampleTieOracle : Oracle := fun _ => [2, 5, 5, 1, 5]

/-- An unconstrained right-hand note. -/
def sampleFree : Note :=
  { left := false, note := 60, time := 0, duration := some 280,
    velocity := none, finger := none }

/-- A later unconstrained right-hand note. -/
def sampleFree2 : Note :=
  { left := false, note := 62, time := 300, duration := some 280,
    velocity := none, finger := none }

/-- A right-hand note whose finger is fixed to 3. -/
def sampleFixed : Note :=
  { left := false, note := 64, time := 600, duration := some 280,
    velocity := none, finger := some 3 }

/-- A note fixed to the non-integral finger value 2.5. -/
def sampleHalfNote : Note :=
  { left := false, note := 60, time := 0, duration := some 100,
    velocity := none, finger := some (5/2) }

/-! ### Claim theorems -/

/-- C2: for every input list and oracles, the list returned by
`predictFingerings` is globally sorted: each adjacent pair satisfies
`time[i] < time[i+1]` or (`time[i] = time[i+1]` and
`note[i] ≤ note[i+1]`), independent of input order and hand split. -/
theorem predictFingerings_output_sorted (notes : List Note)
    (modelLeft modelRight : Oracle) :
    (predictFingerings notes modelLeft modelRight).Chain'
      (fun a b => a.time < b.time ∨ (a.time = b.time ∧ a.note ≤ b.note)) := by
  have h : (predictFingerings notes modelLeft modelRight).Pairwise NoteLE :=
    sortNotes_sorted _
  exact List.Pairwise.chain' (h.imp fun hab => hab)

/-- C3: the hand-predictor variant that skips the oracle call for notes
carrying a fixed finger in `[1,5]` (consulting the oracle only for
predicted notes) produces output identical to the implementation, which
calls the oracle once per note unconditionally and discards its result
for fixed-finger notes. -/
theorem skip_oracle_for_fixed_identical :
    (∀ (oracle : Oracle) (st : FingerState) (l : List Note),
        runHandSkip oracle st l = runHand oracle st l) ∧
    (∀ (notes : List Note) (isLeft : Bool) (oracle : Oracle),
        predictHandFingeringsSkip notes isLeft oracle =
          predictHandFingerings notes isLeft oracle) := by
  constructor
  · intro oracle st l
    exact runHandSkip_eq_runHand oracle l st
  · intro notes isLeft oracle
    unfold predictHandFingeringsSkip predictHandFingerings
    simp only [runHandSkip_eq_runHand]

/-- C8: evaluating the right hand before the left hand (the demo
runner's order) yields the same merged-and-sorted output as evaluating
left before right, for every input and every pair of oracles; moreover
each hand run depends only on its own hand's notes (the hand runs share
no state). -/
theorem hand_execution_order_independent :
    (∀ (notes : List Note) (modelLeft modelRight : Oracle),
        predictFingeringsRightFirst notes modelLeft modelRight =
          predictFingerings notes modelLeft modelRight) ∧
    (∀ (notes : List Note) (isLeft : Bool) (oracle : Oracle),
        predictHandFingerings notes isLeft oracle =
          predictHandFingerings (notes.filter fun n => n.left == isLeft) isLeft oracle) := by
  constructor
  · intro _ _ _; rfl
  · intro notes isLeft oracle
    unfold predictHandFingerings
    rw [List.filter_filter]
    simp

/-- C10: a fixed `finger` holding any rational `f` with `1 ≤ f ≤ 5` —
integral or not, e.g. `2.5` — is treated as a fixed constraint: the
returned record equals the input note (so its `finger` is exactly `f`)
and the oracle's prediction is discarded; no integrality check is
performed. -/
theorem nonintegral_fixed_finger_kept (oracle : Oracle) (st : FingerState)
    (note : Note) (rest : List Note) (f : ℚ)
    (hf : note.finger = some f) (h1 : 1 ≤ f) (h5 : f ≤ 5) :
    (runHand oracle st (note :: rest))[0]? = some note := by
  rw [runHand_cons, resolveNote_of_fixed note _ f hf h1 h5]
  simp

/-- Witness for C10 at the concrete finger value 2.5. -/
theorem nonintegral_fixed_finger_kept_witness :
    sampleHalfNote.finger = some (5/2) ∧ (1:ℚ) ≤ 5/2 ∧ (5/2:ℚ) ≤ 5 ∧
      (runHand sampleOracle initFingerState [sampleHalfNote])[0]? = some sampleHalfNote :=
  ⟨rfl, by decide!, by decide!,
    nonintegral_fixed_finger_kept sampleOracle initFingerState sampleHalfNote [] (5/2)
      rfl (by decide!) (by decide!)⟩

/-- C1: every input note carrying a fixed finger in `[1,5]` keeps that
finger in the output: positionally, the output of
`predictHandFingerings` agrees with the sorted hand input on every
fixed finger, for any oracle; and through `predictFingerings` the note
record itself (finger included) reappears in the merged output. -/
theorem fixed_finger_constraint_preserved (notes : List Note) (isLeft : Bool)
    (oracle modelLeft modelRight : Oracle) :
    List.Forall₂ (fun a b => ∀ f, a.finger = some f → 1 ≤ f → f ≤ 5 → b.finger = some f)
      (sortNotes (notes.filter fun n => n.left == isLeft))
      (predictHandFingerings notes isLeft oracle) ∧
    (∀ (n : Note) (f : ℚ), n ∈ notes → n.finger = some f → 1 ≤ f → f ≤ 5 →
        n ∈ predictFingerings notes modelLeft modelRight) := by
  constructor
  · refine (predictHand_forall₂ notes isLeft oracle).imp ?_
    intro a b hrel f hf h1 h5
    rw [hrel.2.2 f hf h1 h5, hf]
  · intro n f hmem hf h1 h5
    have hhand : ∀ (o : Oracle), n ∈ predictHandFingerings notes n.left o := by
      intro o
      unfold predictHandFingerings
      have hfil : n ∈ notes.filter fun m => m.left == n.left := by
        rw [List.mem_filter]
        exact ⟨hmem, by simp⟩
      have hne : (notes.filter fun m => m.left == n.left).isEmpty = false := by
        cases hcase : notes.filter fun m => m.left == n.left with
        | nil => rw [hcase] at hfil; cases hfil
        | cons a l => rfl
      simp only [hne, Bool.false_eq_true, if_false]
      exact mem_runHand_of_fixed o _ _ n f
        ((sortNotes_perm _).mem_iff.mpr hfil) hf h1 h5
    unfold predictFingerings
    rw [(sortNotes_perm _).mem_iff, List.mem_append]
    cases hl : n.left
    · right
      have h := hhand modelRight
      rwa [hl] at h
    · left
      have h := hhand modelLeft
      rwa [hl] at h

/-- Witness for C1: the note fixed to finger 3 survives the full
pipeline unchanged. -/
theorem fixed_finger_constraint_preserved_witness :
    sampleFixed ∈ [sampleFree, sampleFixed, sampleFree2] ∧
      sampleFixed.finger = some 3 ∧ (1:ℚ) ≤ 3 ∧ (3:ℚ) ≤ 5 ∧
      sampleFixed ∈ predictFingerings [sampleFree, sampleFixed, sampleFree2]
        sampleOracle sampleOracle :=
  ⟨by decide!, rfl, by decide!, by decide!,
    (fixed_finger_constraint_preserved [sampleFree, sampleFixed, sampleFree2] false
        sampleOracle sampleOracle sampleOracle).2 sampleFixed 3
      (by decide!) rfl (by decide!) (by decide!)⟩

/-- C9: no caller-supplied record is modified: every output note of the
hand predictor corresponds positionally to a sorted input note with all
fields other than `finger` equal and `finger` resolved, and every note
of the merged output arises the same way from some input note. -/
theorem output_records_preserve_fields (notes : List Note) (isLeft : Bool)
    (oracle modelLeft modelRight : Oracle) :
    List.Forall₂ (fun a b => sameButFinger a b ∧ b.finger.isSome = true)
      (sortNotes (notes.filter fun n => n.left == isLeft))
      (predictHandFingerings notes isLeft oracle) ∧
    (∀ o ∈ predictFingerings notes modelLeft modelRight,
        ∃ n ∈ notes, sameButFinger n o ∧ o.finger.isSome = true) := by
  constructor
  · refine (predictHand_forall₂ notes isLeft oracle).imp ?_
    intro a b hrel
    exact ⟨hrel.1, hrel.2.1⟩
  · intro o ho
    unfold predictFingerings at ho
    rw [(sortNotes_perm _).mem_iff, List.mem_append] at ho
    rcases ho with ho | ho
    · obtain ⟨a, ha, hrel⟩ :=
        mem_right_of_forall₂ (predictHand_forall₂ notes true modelLeft) ho
      exact ⟨a, List.mem_of_mem_filter ((sortNotes_perm _).mem_iff.mp ha),
        hrel.1, hrel.2.1⟩
    · obtain ⟨a, ha, hrel⟩ :=
        mem_right_of_forall₂ (predictHand_forall₂ notes false modelRight) ho
      exact ⟨a, List.mem_of_mem_filter ((sortNotes_perm _).mem_iff.mp ha),
        hrel.1, hrel.2.1⟩

/-- The record produced for `sampleFree` under `sampleOracle`. -/
def sampleFreeOut : Note :=
  { left := false, note := 60, time := 0, duration := some 280,
    velocity := none, finger := some 1 }

/-- Witness for C9 on a concrete one-note input. -/
theorem output_records_preserve_fields_witness :
    sampleFreeOut ∈ predictFingerings [sampleFree] sampleOracle sampleOracle ∧
      ∃ n ∈ [sampleFree], sameButFinger n sampleFreeOut ∧
        sampleFreeOut.finger.isSome = true :=
  ⟨by decide!,
    (output_records_preserve_fields [sampleFree] false sampleOracle sampleOracle
        sampleOracle).2 sampleFreeOut (by decide!)⟩

theorem argmaxAux_spec : ∀ (xs : List ℚ) (i m : ℕ) (v : ℚ),
    (argmaxAux xs i v m = m ∧ ∀ j, j < xs.length → xs.getD j 0 ≤ v) ∨
    (∃ j, j < xs.length ∧ argmaxAux xs i v m = i + j ∧ v < xs.getD j 0 ∧
      (∀ l, l < xs.length → xs.getD l 0 ≤ xs.getD j 0) ∧
      (∀ l, l < j → xs.getD l 0 < xs.getD j 0)) := by
  intro xs
  induction xs with
  | nil =>
    intro i m v
    left
    exact ⟨rfl, fun j hj => by simp at hj⟩
  | cons x xs ih =>
    intro i m v
    have hred : argmaxAux (x :: xs) i v m =
        if v < x then argmaxAux xs (i + 1) x i else argmaxAux xs (i + 1) v m := rfl
    by_cases hvx : v < x
    · rw [hred, if_pos hvx] at *
      rcases ih (i + 1) i x with ⟨heq, hall⟩ | ⟨j, hjlen, heq, hlt, hall, hstrict⟩
      · right
        refine ⟨0, by simp, by rw [heq, Nat.add_zero], hvx, ?_, ?_⟩
        · intro l hl
          match l with
          | 0 => exact le_refl x
          | l + 1 =>
            rw [List.getD_cons_succ, List.getD_cons_zero]
            exact hall l (by simpa using hl)
        · intro l hl
          omega
      · right
        refine ⟨j + 1, by simpa using hjlen, by rw [heq]; omega, ?_, ?_, ?_⟩
        · rw [List.getD_cons_succ]
          exact hvx.trans hlt
        · intro l hl
          match l with
          | 0 =>
            rw [List.getD_cons_succ, List.getD_cons_zero]
            exact hlt.le
          | l + 1 =>
            rw [List.getD_cons_succ, List.getD_cons_succ]
            exact hall l (by simpa using hl)
        · intro l hl
          match l with
          | 0 =>
            rw [List.getD_cons_succ, List.getD_cons_zero]
            exact hlt
          | l + 1 =>
            rw [List.getD_cons_succ, List.getD_cons_succ]
            exact hstrict l (by omega)
    · rw [hred, if_neg hvx] at *
      push_neg at hvx
      rcases ih (i + 1) m v with ⟨heq, hall⟩ | ⟨j, hjlen, heq, hlt, hall, hstrict⟩
      · left
        refine ⟨heq, ?_⟩
        intro j hj
        match j with
        | 0 => exact hvx
        | j + 1 =>
          rw [List.getD_cons_succ]
          exact hall j (by simpa using hj)
      · right
        refine ⟨j + 1, by simpa using hjlen, by rw [heq]; omega, ?_, ?_, ?_⟩
        · rw [List.getD_cons_succ]
          exact hlt
        · intro l hl
          match l with
          | 0 =>
            rw [List.getD_cons_succ, List.getD_cons_zero]
            exact hvx.trans hlt.le
          | l + 1 =>
            rw [List.getD_cons_succ, List.getD_cons_succ]
            exact hall l (by simpa using hl)
        · intro l hl
          match l with
          | 0 =>
            rw [List.getD_cons_succ, List.getD_cons_zero]
            exact lt_of_le_of_lt hvx hlt
          | l + 1 =>
            rw [List.getD_cons_succ, List.getD_cons_succ]
            exact hstrict l (by omega)

theorem argmax_spec (scores : List ℚ) : ∀ j, j < scores.length →
    scores.getD j 0 ≤ scores.getD (argmax scores) 0 ∧
    (j < argmax scores → scores.getD j 0 < scores.getD (argmax scores) 0) := by
  cases scores with
  | nil => intro j hj; simp at hj
  | cons x xs =>
    have hred : argmax (x :: xs) = argmaxAux xs 1 x 0 := rfl
    rcases argmaxAux_spec xs 1 0 x with ⟨heq, hall⟩ | ⟨j, hjlen, heq, hlt, hall, hstrict⟩
    · intro l hl
      rw [hred, heq]
      constructor
      · match l with
        | 0 => exact le_refl _
        | l + 1 =>
          rw [List.getD_cons_succ, List.getD_cons_zero]
          exact hall l (by simpa using hl)
      · intro habs
        omega
    · intro l hl
      rw [hred, heq]
      have hget : (x :: xs).getD (1 + j) 0 = xs.getD j 0 := by
        rw [Nat.add_comm, List.getD_cons_succ]
      rw [hget]
      constructor
      · match l with
        | 0 =>
          rw [List.getD_cons_zero]
          exact hlt.le
        | l + 1 =>
          rw [List.getD_cons_succ]
          exact hall l (by simpa using hl)
      · intro hlr
        match l with
        | 0 =>
          rw [List.getD_cons_zero]
          exact hlt
        | l + 1 =>
          rw [List.getD_cons_succ]
          exact hstrict l (by omega)

/-- C7: for a note without a valid fixed finger, the resolved finger is
`1 +` the index of the maximum of the oracle's scores, where the
scanning argmax attains the maximum and every index left of it is
strictly smaller (first occurrence wins ties). -/
theorem argmax_lowest_index_tie_break :
    (∀ (scores : List ℚ) (j : ℕ), j < scores.length →
        scores.getD j 0 ≤ scores.getD (argmax scores) 0 ∧
        (j < argmax scores → scores.getD j 0 < scores.getD (argmax scores) 0)) ∧
    (∀ (oracle : Oracle) (st : FingerState) (note : Note) (rest : List Note),
        (∀ f, note.finger = some f → ¬(1 ≤ f ∧ f ≤ 5)) →
        (runHand oracle st (note :: rest))[0]? =
          some { note with finger := some ((argmax (oracleScores oracle st note rest) : ℚ) + 1) }) := by
  constructor
  · exact argmax_spec
  · intro oracle st note rest hnf
    rw [runHand_cons]
    have hres : resolveNote note (argmax (oracleScores oracle st note rest)) =
        { note with finger := some ((argmax (oracleScores oracle st note rest) : ℚ) + 1) } := by
      unfold resolveNote
      rcases hf : note.finger with _ | f
      · rfl
      · dsimp only
        rw [if_neg (hnf f hf)]
    rw [hres]
    simp

/-- An unconstrained note used to exercise tie-breaking. -/
def samplePredNote : Note :=
  { left := false, note := 60, time := 0, duration := some 100,
    velocity := none, finger := none }

/-- Witness for C7: scores `[2,5,5,1,5]` tie at indices 1, 2 and 4; the
scan returns index 1 and the resolved finger is 2. -/
theorem argmax_lowest_index_tie_break_witness :
    (2:ℕ) < ([2, 5, 5, 1, 5] : List ℚ).length ∧
      ([2, 5, 5, 1, 5] : List ℚ).getD 2 0 ≤
        ([2, 5, 5, 1, 5] : List ℚ).getD (argmax [2, 5, 5, 1, 5]) 0 ∧
      argmax ([2, 5, 5, 1, 5] : List ℚ) = 1 ∧
      (runHand sampleTieOracle initFingerState [samplePredNote])[0]? =
        some { samplePredNote with finger := some ((argmax (oracleScores sampleTieOracle initFingerState samplePredNote []) : ℚ) + 1) } ∧
      (runHand sampleTieOracle initFingerState [samplePredNote])[0]? =
        some { samplePredNote with finger := some 2 } :=
  ⟨by decide!,
    (argmax_lowest_index_tie_break.1 [2, 5, 5, 1, 5] 2 (by decide!)).1,
    by decide!,
    argmax_lowest_index_tie_break.2 sampleTieOracle initFingerState samplePredNote []
      (fun f hf => by simp [samplePredNote] at hf),
    by decide!⟩

/-- C6: after each processed note the chosen finger's slot is set to
`lastMidi = pitch` and `lastTime = -(durationMs/1000)` (duration
defaulting to 100 when absent); then, unless the note is the last of
the hand, the gap to the next note divided by 1000 is added to every
slot that is not the `Infinity` sentinel (`none`), and no advance
happens after the last note.  The first conjunct ties this state
evolution into the hand loop `runHand`. -/
theorem finger_state_update_and_advance (oracle : Oracle) (st : FingerState)
    (note : Note) (rest : List Note) :
    (runHand oracle st (note :: rest) =
      resolveNote note (argmax (oracleScores oracle st note rest)) ::
        runHand oracle
          (runHandStep st note
            (resolveFinger note.finger (argmax (oracleScores oracle st note rest))) rest)
          rest) ∧
    (∀ (finger : ℚ) (k : Fin 5), qToFin5 (finger - 1) = some k →
        (runHandStep st note finger []).lastMidi k = note.note ∧
        (runHandStep st note finger []).lastTime k =
          some (-(note.duration.getD 100 / 1000))) ∧
    (∀ (finger : ℚ) (k : Fin 5) (next : Note) (rest2 : List Note),
        qToFin5 (finger - 1) = some k →
        (runHandStep st note finger (next :: rest2)).lastMidi k = note.note ∧
        (runHandStep st note finger (next :: rest2)).lastTime k =
          some (-(note.duration.getD 100 / 1000) + (next.time - note.time) / 1000)) ∧
    (∀ (finger : ℚ) (k : Fin 5), qToFin5 (finger - 1) ≠ some k →
        ((runHandStep st note finger []).lastMidi k = st.lastMidi k ∧
         (runHandStep st note finger []).lastTime k = st.lastTime k) ∧
        ∀ (next : Note) (rest2 : List Note),
          (runHandStep st note finger (next :: rest2)).lastMidi k = st.lastMidi k ∧
          (runHandStep st note finger (next :: rest2)).lastTime k =
            (st.lastTime k).map (fun t => t + (next.time - note.time) / 1000)) := by
  refine ⟨rfl, ?_, ?_, ?_⟩
  · intro finger k hk
    simp only [runHandStep, updateState, hk]
    exact ⟨Function.update_same k note.note st.lastMidi,
      Function.update_same k _ st.lastTime⟩
  · intro finger k next rest2 hk
    simp only [runHandStep, updateState, advanceState, hk]
    rw [Function.update_same, Function.update_same]
    exact ⟨rfl, rfl⟩
  · intro finger k hk
    rcases hq : qToFin5 (finger - 1) with _ | k'
    · simp [runHandStep, updateState, advanceState, hq]
    · have hne : k ≠ k' := by
        intro h
        rw [h] at hk
        exact hk hq
      simp [runHandStep, updateState, advanceState, hq, Function.update_noteq hne]

/-- Witness for C6: finger 3 on a concrete two-note hand; slot 2 records
pitch 60 and time `-(280/1000) + 300/1000`; untouched slot 0 stays at
the never-used sentinel. -/
theorem finger_state_update_and_advance_witness :
    qToFin5 ((3:ℚ) - 1) = some (2 : Fin 5) ∧
      (runHandStep initFingerState sampleFree 3 []).lastMidi 2 = sampleFree.note ∧
      (runHandStep initFingerState sampleFree 3 []).lastTime 2 =
        some (-(sampleFree.duration.getD 100 / 1000)) ∧
      (runHandStep initFingerState sampleFree 3 [sampleFree2]).lastTime 2 =
        some (-(sampleFree.duration.getD 100 / 1000) +
          (sampleFree2.time - sampleFree.time) / 1000) ∧
      ¬qToFin5 ((3:ℚ) - 1) = some (0 : Fin 5) ∧
      (runHandStep initFingerState sampleFree 3 [sampleFree2]).lastTime 0 =
        (initFingerState.lastTime 0).map
          (fun t => t + (sampleFree2.time - sampleFree.time) / 1000) :=
  ⟨by decide!,
    ((finger_state_update_and_advance sampleOracle initFingerState sampleFree
        []).2.1 3 2 (by decide!)).1,
    ((finger_state_update_and_advance sampleOracle initFingerState sampleFree
        []).2.1 3 2 (by decide!)).2,
    ((finger_state_update_and_advance sampleOracle initFingerState sampleFree
        [sampleFree2]).2.2.1 3 2 sampleFree2 [] (by decide!)).2,
    by decide!,
    (((finger_state_update_and_advance sampleOracle initFingerState sampleFree
        [sampleFree2]).2.2.2 3 0 (by decide!)).2 sampleFree2 []).2⟩

theorem buildTokensRows_getElem_five (cm : ℤ) (lm : Fin 5 → ℤ)
    (lt : Fin 5 → Option ℚ) (lns : List LookaheadNote) :
    (buildTokensRows cm lm lt lns)[5]? = some (currentRow cm) := rfl

theorem buildTokensRows_getElem_prev (cm : ℤ) (lm : Fin 5 → ℤ)
    (lt : Fin 5 → Option ℚ) (lns : List LookaheadNote) (f : Fin 5) :
    (buildTokensRows cm lm lt lns)[(f : ℕ)]? =
      some (prevRow (((cm : ℚ) - 21) / 87) (lm f) (lt f)) := by
  fin_cases f <;> rfl

theorem lookaheadRows_getElem (ref : ℚ) (lns : List LookaheadNote) (j : ℕ)
    (hj : j < 20) (ln : LookaheadNote) (hln : lns[j]? = some ln) :
    (lookaheadRows ref lns)[j]? = some (lookRow ref ln) := by
  simp only [lookaheadRows, List.getElem?_map, List.getElem?_range hj,
    Option.map_some', hln]

theorem buildTokensRows_getElem_look (cm : ℤ) (lm : Fin 5 → ℤ)
    (lt : Fin 5 → Option ℚ) (lns : List LookaheadNote) (j : ℕ) (hj : j < 20)
    (ln : LookaheadNote) (hln : lns[j]? = some ln) :
    (buildTokensRows cm lm lt lns)[6 + j]? =
      some (lookRow (((cm : ℚ) - 21) / 87) ln) := by
  simp only [buildTokensRows]
  rw [List.getElem?_append_right (by simp)]
  simp only [List.length_cons, List.length_nil]
  have h6 : 6 + j - (0 + 1 + 1 + 1 + 1 + 1 + 1) = j := by omega
  rw [h6, lookaheadRows_getElem _ lns j hj ln hln]

theorem sum_map_length_eq (M : List (List ℚ)) (h : ∀ row ∈ M, row.length = 5) :
    (M.map List.length).sum = 5 * M.length := by
  induction M with
  | nil => simp
  | cons r M ih =>
    simp only [List.map_cons, List.sum_cons, List.length_cons]
    rw [h r (List.mem_cons_self r M), ih (fun row hm => h row (List.mem_cons_of_mem r hm))]
    ring

theorem buildTokensRows_row_length (cm : ℤ) (lm : Fin 5 → ℤ)
    (lt : Fin 5 → Option ℚ) (lns : List LookaheadNote) :
    ∀ row ∈ buildTokensRows cm lm lt lns, row.length = 5 := by
  intro row hrow
  simp only [buildTokensRows] at hrow
  rcases List.mem_append.mp hrow with h | h
  · simp only [List.mem_cons, List.not_mem_nil, or_false] at h
    rcases h with rfl | rfl | rfl | rfl | rfl | rfl <;> rfl
  · simp only [lookaheadRows, List.mem_map] at h
    obtain ⟨a, _, rfl⟩ := h
    rcases hm : lns[a]? with _ | ln <;> simp [hm, padRow, lookRow]

theorem buildTokensRows_length (cm : ℤ) (lm : Fin 5 → ℤ)
    (lt : Fin 5 → Option ℚ) (lns : List LookaheadNote) :
    (buildTokensRows cm lm lt lns).length = 26 := by
  simp [buildTokensRows, lookaheadRows]

/-- Counterexample for C4: the lookahead pitch 10 lies outside the MIDI
range 21-108, yet the encoder does not apply the `-1.0` sentinels: the
offset feature is the computed `-50/87` and the black-key feature the
computed `1.0`, because the code's absence test is `midi < 0`, not
range membership. -/
theorem out_of_range_pitch_not_sentinel_cex :
    ((10:ℤ) < 21 ∧ (0:ℤ) ≤ 10) ∧
    tokenFeature (buildTokensRows 60 initFingerState.lastMidi initFingerState.lastTime
      [{ midi := 10, timeUntil := 5, finger := none }]) 6 0 = some (-50/87) ∧
    tokenFeature (buildTokensRows 60 initFingerState.lastMidi initFingerState.lastTime
      [{ midi := 10, timeUntil := 5, finger := none }]) 6 0 ≠ some (-1) ∧
    tokenFeature (buildTokensRows 60 initFingerState.lastMidi initFingerState.lastTime
      [{ midi := 10, timeUntil := 5, finger := none }]) 6 2 = some 1 ∧
    tokenFeature (buildTokensRows 60 initFingerState.lastMidi initFingerState.lastTime
      [{ midi := 10, timeUntil := 5, finger := none }]) 6 2 ≠ some (-1) := by
  decide!

/-- C4 amended: for any pitch (valid, out-of-range or negative) the
encoder returns a well-formed 26×5 token matrix (130 flat values)
without failing, and the §4.1 sentinel rules (offset `-1.0`, black-key
`-1.0`) apply exactly to *negative* pitches — the code's encoding of an
absent pitch — not to every pitch outside 21-108. -/
theorem encoder_wellformed_negative_pitch_sentinel (cm : ℤ) (lm : Fin 5 → ℤ)
    (lt : Fin 5 → Option ℚ) (lns : List LookaheadNote) :
    (buildTokensRows cm lm lt lns).length = 26 ∧
    (∀ row ∈ buildTokensRows cm lm lt lns, row.length = 5) ∧
    (buildTokens cm lm lt lns).length = 130 ∧
    (cm < 0 →
        tokenFeature (buildTokensRows cm lm lt lns) 5 0 = some (-1) ∧
        tokenFeature (buildTokensRows cm lm lt lns) 5 2 = some (-1)) ∧
    (∀ (j : ℕ) (ln : LookaheadNote), j < 20 → lns[j]? = some ln → ln.midi < 0 →
        tokenFeature (buildTokensRows cm lm lt lns) (6 + j) 0 = some (-1) ∧
        tokenFeature (buildTokensRows cm lm lt lns) (6 + j) 2 = some (-1)) := by
  refine ⟨buildTokensRows_length cm lm lt lns, buildTokensRows_row_length cm lm lt lns,
    ?_, ?_, ?_⟩
  · rw [buildTokens, List.length_flatten,
      sum_map_length_eq _ (buildTokensRows_row_length cm lm lt lns),
      buildTokensRows_length cm lm lt lns]
  · intro hcm
    rw [tokenFeature, tokenFeature, buildTokensRows_getElem_five]
    simp [currentRow, midiToPitchClass, isBlackKey, hcm]
  · intro j ln hj hln hmid
    rw [tokenFeature, tokenFeature, buildTokensRows_getElem_look cm lm lt lns j hj ln hln]
    have hnot : ¬ln.midi ≥ 0 := by omega
    simp [lookRow, hnot]

/-- Witness for C4 (amended form) at a negative current pitch and a
negative lookahead pitch. -/
theorem encoder_wellformed_negative_pitch_sentinel_witness :
    ((-7:ℤ) < 0 ∧ (0:ℕ) < 20 ∧
      ([{ midi := -3, timeUntil := 5, finger := none }] :
          List LookaheadNote)[0]? = some { midi := -3, timeUntil := 5, finger := none } ∧
      (-3:ℤ) < 0) ∧
    (buildTokens (-7) (fun _ => -1) (fun _ => none)
      [{ midi := -3, timeUntil := 5, finger := none }]).length = 130 ∧
    tokenFeature (buildTokensRows (-7) (fun _ => -1) (fun _ => none)
      [{ midi := -3, timeUntil := 5, finger := none }]) 5 0 = some (-1) ∧
    tokenFeature (buildTokensRows (-7) (fun _ => -1) (fun _ => none)
      [{ midi := -3, timeUntil := 5, finger := none }]) 6 0 = some (-1) :=
  ⟨⟨by decide!, by decide!, rfl, by decide!⟩,
    (encoder_wellformed_negative_pitch_sentinel (-7) (fun _ => -1) (fun _ => none)
        [{ midi := -3, timeUntil := 5, finger := none }]).2.2.1,
    ((encoder_wellformed_negative_pitch_sentinel (-7) (fun _ => -1) (fun _ => none)
        [{ midi := -3, timeUntil := 5, finger := none }]).2.2.2.1 (by decide!)).1,
    ((encoder_wellformed_negative_pitch_sentinel (-7) (fun _ => -1) (fun _ => none)
        [{ midi := -3, timeUntil := 5, finger := none }]).2.2.2.2 0
        { midi := -3, timeUntil := 5, finger := none } (by decide!) rfl (by decide!)).1⟩

/-- C5: for a present (non-negative) pitch the previous-finger and
lookahead rows carry the offset feature
`((pitch - 21)/87) - ((currentPitch - 21)/87)`, the current row's first
feature is `((currentPitch - 21) mod 12)/11`, and an absent (negative)
pitch yields `-1.0` for the offset feature instead. -/
theorem encoder_pitch_offset_features (cm : ℤ) (lm : Fin 5 → ℤ)
    (lt : Fin 5 → Option ℚ) (lns : List LookaheadNote) :
    (∀ f : Fin 5,
        tokenFeature (buildTokensRows cm lm lt lns) (f : ℕ) 0 =
          some (if lm f ≥ 0 then ((lm f : ℚ) - 21) / 87 - ((cm : ℚ) - 21) / 87 else -1)) ∧
    (0 ≤ cm →
        tokenFeature (buildTokensRows cm lm lt lns) 5 0 =
          some ((((cm - 21) % 12 : ℤ) : ℚ) / 11)) ∧
    (cm < 0 → tokenFeature (buildTokensRows cm lm lt lns) 5 0 = some (-1)) ∧
    (∀ (j : ℕ) (ln : LookaheadNote), j < 20 → lns[j]? = some ln →
        tokenFeature (buildTokensRows cm lm lt lns) (6 + j) 0 =
          some (if ln.midi ≥ 0 then ((ln.midi : ℚ) - 21) / 87 - ((cm : ℚ) - 21) / 87 else -1)) := by
  refine ⟨?_, ?_, ?_, ?_⟩
  · intro f
    rw [tokenFeature, buildTokensRows_getElem_prev]
    simp [prevRow]
  · intro h
    rw [tokenFeature, buildTokensRows_getElem_five]
    have hmod : ((cm - 21) % 12 + 12) % 12 = (cm - 21) % 12 := by omega
    simp [currentRow, midiToPitchClass, not_lt.mpr h, hmod]
  · intro h
    rw [tokenFeature, buildTokensRows_getElem_five]
    simp [currentRow, midiToPitchClass, h]
  · intro j ln hj hln
    rw [tokenFeature, buildTokensRows_getElem_look cm lm lt lns j hj ln hln]
    simp [lookRow]

/-- Witness for C5 at current pitch 60, a previous-finger pitch 64 and
a lookahead pitch 70. -/
theorem encoder_pitch_offset_features_witness :
    tokenFeature (buildTokensRows 60 (fun _ => 64) (fun _ => none)
      [{ midi := 70, timeUntil := 100, finger := none }]) 0 0 =
      some (if (64:ℤ) ≥ 0 then ((64:ℚ) - 21) / 87 - ((60:ℚ) - 21) / 87 else -1) ∧
    ((0:ℤ) ≤ 60 ∧
      tokenFeature (buildTokensRows 60 (fun _ => 64) (fun _ => none)
        [{ midi := 70, timeUntil := 100, finger := none }]) 5 0 =
        some (((((60:ℤ) - 21) % 12 : ℤ) : ℚ) / 11)) ∧
    ((0:ℕ) < 20 ∧
      tokenFeature (buildTokensRows 60 (fun _ => 64) (fun _ => none)
        [{ midi := 70, timeUntil := 100, finger := none }]) 6 0 =
        some (if (70:ℤ) ≥ 0 then ((70:ℚ) - 21) / 87 - ((60:ℚ) - 21) / 87 else -1)) :=
  ⟨(encoder_pitch_offset_features 60 (fun _ => 64) (fun _ => none)
      [{ midi := 70, timeUntil := 100, finger := none }]).1 0,
    ⟨by decide!,
      (encoder_pitch_offset_features 60 (fun _ => 64) (fun _ => none)
        [{ midi := 70, timeUntil := 100, finger := none }]).2.1 (by decide!)⟩,
    ⟨by decide!,
      (encoder_pitch_offset_features 60 (fun _ => 64) (fun _ => none)
        [{ midi := 70, timeUntil := 100, finger := none }]).2.2.2 0
        { midi := 70, timeUntil := 100, finger := none } (by decide!) rfl⟩⟩

end PianoFingering
